import Mathlib

/-!
Verification of the crai diff-to-findings core: a shallow embedding of the
unified-diff parser (`src/diff/parser.rs`, `src/diff/chunk.rs`), the
score-threshold filter entry point, the AI provider backends
(`src/ai/claude.rs`, `src/ai/kiro.rs`) and the scoring orchestrator
(`src/ai/scoring.rs`), together with theorems settling the spec claims.

Strings are embedded as `List Char` (Rust byte/char indices coincide on the
ASCII inputs the claims exercise); `u32` counters are `Nat` with an explicit
`% 2^32` where the source increments them.
-/

namespace Crai

/-- Shorthand: the character list of a string literal. -/
def str (s : String) : List Char := s.data

/-! ### Data model (`src/diff/chunk.rs`) -/

/-- `FileStatus` from `chunk.rs`. -/
inductive FileStatus
  | Added
  | Deleted
  | Modified
  | Renamed (similarity_percent : Nat)
  | Copied
deriving DecidableEq

/-- `Language` from `chunk.rs`. -/
inductive Language
  | Rust | Python | JavaScript | TypeScript | Go | Java | CSharp | Cpp | C
  | Ruby | Kotlin | Swift | Yaml | Json | Toml | Markdown | Shell | Unknown
deriving DecidableEq

/-- `Language::from_extension`: match on the lowercased extension. -/
def Language.from_extension (ext : List Char) : Language :=
  let e := ext.map Char.toLower
  if e = str "rs" then .Rust
  else if e = str "py" then .Python
  else if e = str "js" ∨ e = str "mjs" ∨ e = str "cjs" then .JavaScript
  else if e = str "ts" ∨ e = str "tsx" then .TypeScript
  else if e = str "go" then .Go
  else if e = str "java" then .Java
  else if e = str "cs" then .CSharp
  else if e = str "cpp" ∨ e = str "cc" ∨ e = str "cxx" ∨ e = str "hpp" then .Cpp
  else if e = str "c" ∨ e = str "h" then .C
  else if e = str "rb" then .Ruby
  else if e = str "kt" ∨ e = str "kts" then .Kotlin
  else if e = str "swift" then .Swift
  else if e = str "yaml" ∨ e = str "yml" then .Yaml
  else if e = str "json" then .Json
  else if e = str "toml" then .Toml
  else if e = str "md" ∨ e = str "markdown" then .Markdown
  else if e = str "sh" ∨ e = str "bash" ∨ e = str "zsh" then .Shell
  else .Unknown

/-- Split a character list at every occurrence of `sep` (like Rust `split(sep)`:
always at least one group, empty groups kept). -/
def splitOnChar (sep : Char) : List Char → List (List Char)
  | [] => [[]]
  | c :: rest =>
    match splitOnChar sep rest with
    | [] => if c = sep then [[], []] else [[c]]
    | g :: gs => if c = sep then [] :: g :: gs else (c :: g) :: gs

/-- `std::path::Path::extension` on the textual path: the part of the final
component after its last `.`, none when there is no `.` or the only `.` is the
leading one of a hidden file. -/
def extensionOf (path : List Char) : Option (List Char) :=
  let name := (splitOnChar '/' path).getLast?.getD []
  match splitOnChar '.' name with
  | [] => none
  | [_] => none
  | first :: rest =>
    if first = [] ∧ rest.length = 1 then none else rest.getLast?

/-- `Language::from_path`. -/
def Language.from_path (path : List Char) : Language :=
  ((extensionOf path).map Language.from_extension).getD .Unknown

/-- `LineRange` from `chunk.rs` (`u32` fields, parsed values are `< 2^32`). -/
structure LineRange where
  start : Nat
  count : Nat
deriving DecidableEq

/-- `LineKind` from `chunk.rs`. -/
inductive LineKind
  | Context
  | Add
  | Remove
deriving DecidableEq

/-- `DiffLine` from `chunk.rs`. -/
structure DiffLine where
  kind : LineKind
  old_line_num : Option Nat
  new_line_num : Option Nat
  content : List Char
deriving DecidableEq

/-- `DiffChunk` from `chunk.rs` (`ChunkId` is its wrapped `u64`). -/
structure DiffChunk where
  id : Nat
  old_range : LineRange
  new_range : LineRange
  header : List Char
  lines : List DiffLine
deriving DecidableEq

/-- `DiffChunk::additions`. -/
def DiffChunk.additions (c : DiffChunk) : Nat :=
  (c.lines.filter (fun l => l.kind = LineKind.Add)).length

/-- `DiffChunk::deletions`. -/
def DiffChunk.deletions (c : DiffChunk) : Nat :=
  (c.lines.filter (fun l => l.kind = LineKind.Remove)).length

/-- `FileDiff` from `chunk.rs`. -/
structure FileDiff where
  path : List Char
  status : FileStatus
  language : Option Language
  chunks : List DiffChunk
  old_content : Option (List Char)
  new_content : Option (List Char)
deriving DecidableEq

/-- `ParseError` from `chunk.rs` (`line` is the optional line number field). -/
structure ParseError where
  file_path : List Char
  message : List Char
  line : Option Nat
deriving DecidableEq

/-! ### Parser helpers (`src/diff/parser.rs`) -/

/-- Rust `str::parse::<u32>`: optional leading `+`, one or more ASCII digits,
value at most `u32::MAX`. -/
def parseU32 (s : List Char) : Option Nat :=
  let ds := match s with
    | '+' :: rest => rest
    | _ => s
  if ds = [] then none
  else if ds.all (fun c => c.isDigit) then
    let v := ds.foldl (fun acc c => acc * 10 + (c.toNat - 48)) 0
    if v < 4294967296 then some v else none
  else none

/-- Rust `str::split_once(sep)`: split at the first occurrence of `sep`. -/
def splitOnceChar (sep : Char) : List Char → Option (List Char × List Char)
  | [] => none
  | c :: cs =>
    if c = sep then some ([], cs)
    else (splitOnceChar sep cs).map (fun p => (c :: p.1, p.2))

/-- `parse_range` from `parser.rs`: `start,count` or a bare `start`
(count defaulting to 1). -/
def parse_range (s : List Char) : Option LineRange :=
  match splitOnceChar ',' s with
  | some (a, b) =>
    match parseU32 a with
    | none => none
    | some x =>
      match parseU32 b with
      | none => none
      | some y => some ⟨x, y⟩
  | none => (parseU32 s).map (fun x => ⟨x, 1⟩)

/-- Index of the first occurrence of `pat` as a contiguous subsequence
(Rust `str::find` for a non-empty pattern). -/
def findIdxOfSub (pat : List Char) : List Char → Option Nat
  | [] => none
  | c :: cs =>
    if pat.isPrefixOf (c :: cs) then some 0
    else (findIdxOfSub pat cs).map (· + 1)

/-- The suffix just after the first occurrence of `pat`
(Rust `find` followed by slicing past the pattern). -/
def suffixAfterSub (pat : List Char) : List Char → Option (List Char)
  | [] => none
  | c :: cs =>
    if pat.isPrefixOf (c :: cs) then some ((c :: cs).drop pat.length)
    else suffixAfterSub pat cs

/-- Rust `str::trim` restricted to the whitespace the inputs contain. -/
def trimChars (s : List Char) : List Char :=
  ((s.dropWhile Char.isWhitespace).reverse.dropWhile Char.isWhitespace).reverse

/-- `parse_diff_header` from `parser.rs`: the path after the `" b/"` marker,
with an `"unknown"` fallback. -/
def parse_diff_header (line : List Char) : List Char :=
  if (str "diff --git ").isPrefixOf line then
    match suffixAfterSub (str " b/") (line.drop (str "diff --git ").length) with
    | some new_path => new_path
    | none => str "unknown"
  else str "unknown"

/-- `parse_chunk_header` from `parser.rs`: `@@ -a,b +c,d @@ context`. -/
def parse_chunk_header (line : List Char) :
    Option (LineRange × LineRange × List Char) :=
  if (str "@@ ").isPrefixOf line then
    let s := line.drop 3
    match findIdxOfSub (str " @@") s with
    | none => none
    | some endIdx =>
      let ranges := s.take endIdx
      let header := trimChars (s.drop (endIdx + 3))
      match splitOnChar ' ' ranges with
      | [] => none
      | p1 :: rest =>
        match p1 with
        | '-' :: p1tl =>
          match parse_range p1tl with
          | none => none
          | some old_range =>
            match rest with
            | [] => none
            | p2 :: _ =>
              match p2 with
              | '+' :: p2tl =>
                match parse_range p2tl with
                | none => none
                | some new_range => some (old_range, new_range, header)
              | _ => none
        | _ => none
  else none

/-- Rust `str::lines()`: split at `\n`, no trailing empty line for a trailing
newline, and a trailing `\r` stripped from each line. -/
def rustLines (s : List Char) : List (List Char) :=
  let parts := splitOnChar '\n' s
  let parts := match parts.getLast? with
    | some [] => parts.dropLast
    | _ => parts
  parts.map (fun l => if l.getLast? = some '\r' then l.dropLast else l)

/-! ### Builders and main loop (`src/diff/parser.rs`) -/

/-- One `u32` increment as the source performs it. -/
def u32succ (x : Nat) : Nat := (x + 1) % 4294967296

/-- `ChunkBuilder` from `parser.rs`. -/
structure ChunkBuilder where
  id : Nat
  old_range : LineRange
  new_range : LineRange
  header : List Char
  lines : List DiffLine
  current_old_line : Nat
  current_new_line : Nat
deriving DecidableEq

/-- `ChunkBuilder::add_line`: assign line numbers per kind and advance the
per-side counters. -/
def ChunkBuilder.add_line (cb : ChunkBuilder) (kind : LineKind)
    (content : List Char) : ChunkBuilder :=
  match kind with
  | .Context =>
    { cb with
      lines := cb.lines ++
        [⟨.Context, some cb.current_old_line, some cb.current_new_line, content⟩],
      current_old_line := u32succ cb.current_old_line,
      current_new_line := u32succ cb.current_new_line }
  | .Add =>
    { cb with
      lines := cb.lines ++ [⟨.Add, none, some cb.current_new_line, content⟩],
      current_new_line := u32succ cb.current_new_line }
  | .Remove =>
    { cb with
      lines := cb.lines ++ [⟨.Remove, some cb.current_old_line, none, content⟩],
      current_old_line := u32succ cb.current_old_line }

/-- `ChunkBuilder::build`. -/
def ChunkBuilder.build (cb : ChunkBuilder) : DiffChunk :=
  ⟨cb.id, cb.old_range, cb.new_range, cb.header, cb.lines⟩

/-- The fresh `ChunkBuilder` that `FileDiffBuilder::start_chunk` installs. -/
def ChunkBuilder.init (id : Nat) (old_range new_range : LineRange)
    (header : List Char) : ChunkBuilder :=
  ⟨id, old_range, new_range, header, [], old_range.start, new_range.start⟩

/-- `FileDiffBuilder` from `parser.rs`. -/
structure FileDiffBuilder where
  path : List Char
  status : FileStatus
  language : Language
  chunks : List DiffChunk
  current_chunk : Option ChunkBuilder
deriving DecidableEq

/-- `FileDiffBuilder::new`. -/
def FileDiffBuilder.new (path : List Char) : FileDiffBuilder :=
  ⟨path, .Modified, Language.from_path path, [], none⟩

/-- `FileDiffBuilder::start_chunk`: flush any chunk in progress, then open a
fresh one. -/
def FileDiffBuilder.start_chunk (b : FileDiffBuilder) (id : Nat)
    (old_range new_range : LineRange) (header : List Char) : FileDiffBuilder :=
  let chunks := match b.current_chunk with
    | some cb => b.chunks ++ [cb.build]
    | none => b.chunks
  { b with
    chunks := chunks,
    current_chunk := some (ChunkBuilder.init id old_range new_range header) }

/-- `FileDiffBuilder::add_line`: forwarded to the chunk in progress, dropped
when none is open. -/
def FileDiffBuilder.add_line (b : FileDiffBuilder) (kind : LineKind)
    (content : List Char) : FileDiffBuilder :=
  match b.current_chunk with
  | some cb => { b with current_chunk := some (cb.add_line kind content) }
  | none => b

/-- `FileDiffBuilder::build`: flush the chunk in progress and produce the
`FileDiff`. -/
def FileDiffBuilder.build (b : FileDiffBuilder) : FileDiff :=
  let chunks := match b.current_chunk with
    | some cb => b.chunks ++ [cb.build]
    | none => b.chunks
  ⟨b.path, b.status, some b.language, chunks, none, none⟩

/-- The body of `parse_unified_diff`'s per-line dispatch once a file is open:
returns the updated builder, the updated chunk-id counter, and an optional
parse error. -/
def processFileLine (counter : Nat) (b : FileDiffBuilder) (line : List Char) :
    FileDiffBuilder × Nat × Option ParseError :=
  if (str "---").isPrefixOf line then
    (if line = str "--- /dev/null" then { b with status := .Added } else b,
     counter, none)
  else if (str "+++").isPrefixOf line then
    (if line = str "+++ /dev/null" then { b with status := .Deleted } else b,
     counter, none)
  else if (str "@@").isPrefixOf line then
    match parse_chunk_header line with
    | some (old_range, new_range, header) =>
      (b.start_chunk counter old_range new_range header, counter + 1, none)
    | none =>
      (b, counter,
       some ⟨b.path, str "Failed to parse chunk header: " ++ line, none⟩)
  else if (str "+").isPrefixOf line ∧ ¬ (str "+++").isPrefixOf line then
    (b.add_line .Add (line.drop 1), counter, none)
  else if (str "-").isPrefixOf line ∧ ¬ (str "---").isPrefixOf line then
    (b.add_line .Remove (line.drop 1), counter, none)
  else if (str " ").isPrefixOf line ∨ line = [] then
    (b.add_line .Context (if line = [] then [] else line.drop 1), counter, none)
  else
    (b, counter, none)

/-- The loop state of `parse_unified_diff`. -/
structure ParserState where
  files : List FileDiff
  errors : List ParseError
  chunk_id_counter : Nat
  current_file : Option FileDiffBuilder
deriving DecidableEq

/-- One iteration of the `parse_unified_diff` line loop. -/
def processLine (st : ParserState) (line : List Char) : ParserState :=
  if (str "diff --git").isPrefixOf line then
    let files := match st.current_file with
      | some b => st.files ++ [b.build]
      | none => st.files
    { st with
      files := files,
      current_file := some (FileDiffBuilder.new (parse_diff_header line)) }
  else
    match st.current_file with
    | none => st
    | some b =>
      let r := processFileLine st.chunk_id_counter b line
      { st with
        current_file := some r.1,
        chunk_id_counter := r.2.1,
        errors := match r.2.2 with
          | some e => st.errors ++ [e]
          | none => st.errors }

/-- `DiffParser::parse_unified_diff`: fold the line loop, then flush the last
file. -/
def parse_unified_diff (diff_text : List Char) :
    List FileDiff × List ParseError :=
  let st := (rustLines diff_text).foldl processLine ⟨[], [], 0, none⟩
  let files := match st.current_file with
    | some b => st.files ++ [b.build]
    | none => st.files
  (files, st.errors)

/-! ### C1: end-to-end parse of the spec's example diff -/

/-- The diff text of the C1 scenario. -/
def c1Input : List Char :=
  str "diff --git a/f.py b/f.py\n--- a/f.py\n+++ b/f.py\n@@ -1,2 +1,3 @@\n ctx\n-old\n+new1\n+new2\n"

/-- C1: parsing the scenario diff yields exactly one `FileDiff` with path
`f.py`, status Modified, language Python, one chunk with old range `{1,2}`,
new range `{1,3}`, and lines Context/Remove/Add/Add in order, with no parse
errors. -/
theorem c1_end_to_end_parse :
    parse_unified_diff c1Input =
      ([{ path := str "f.py"
          status := .Modified
          language := some .Python
          chunks := [{ id := 0
                       old_range := ⟨1, 2⟩
                       new_range := ⟨1, 3⟩
                       header := []
                       lines :=
                         [⟨.Context, some 1, some 1, str "ctx"⟩,
                          ⟨.Remove, some 2, none, str "old"⟩,
                          ⟨.Add, none, some 2, str "new1"⟩,
                          ⟨.Add, none, some 3, str "new2"⟩] }]
          old_content := none
          new_content := none }], []) := by
  decide

/-! ### C2: line-number bookkeeping invariant of `ChunkBuilder::add_line` -/

/-- Fold a sequence of classified lines through `ChunkBuilder::add_line`,
exactly as the parser feeds a chunk in progress. -/
def foldAddLines (cb : ChunkBuilder) (inputs : List (LineKind × List Char)) :
    ChunkBuilder :=
  inputs.foldl (fun b p => b.add_line p.1 p.2) cb

/-- Whether a line kind consumes the old-side counter (Context and Remove). -/
def consumesOld : LineKind → Bool
  | .Context => true
  | .Add => false
  | .Remove => true

/-- Whether a line kind consumes the new-side counter (Context and Add). -/
def consumesNew : LineKind → Bool
  | .Context => true
  | .Add => true
  | .Remove => false

/-- The per-kind presence pattern of the two optional line numbers. -/
def lineNumPattern (l : DiffLine) : Bool :=
  match l.kind with
  | .Context => l.old_line_num.isSome && l.new_line_num.isSome
  | .Add => l.old_line_num.isNone && l.new_line_num.isSome
  | .Remove => l.old_line_num.isSome && l.new_line_num.isNone

theorem foldAddLines_cons (cb : ChunkBuilder) (p : LineKind × List Char)
    (rest : List (LineKind × List Char)) :
    foldAddLines cb (p :: rest) = foldAddLines (cb.add_line p.1 p.2) rest := rfl

theorem range'_cons_eq (a n : Nat) :
    a :: List.range' (a + 1) n = List.range' a (n + 1) := by
  simp [List.range']

theorem range'_pairwise_lt (n : Nat) : ∀ s : Nat,
    (List.range' s n).Pairwise (· < ·) := by
  induction n with
  | zero => intro s; simp [List.range']
  | succ m ih =>
    intro s
    rw [← range'_cons_eq]
    refine List.Pairwise.cons ?_ (ih (s + 1))
    intro b hb
    have := List.mem_range'_1.mp hb
    omega

theorem foldAddLines_filterMap_old
    (inputs : List (LineKind × List Char)) :
    ∀ cb : ChunkBuilder, cb.current_old_line + inputs.length < 4294967296 →
    (foldAddLines cb inputs).lines.filterMap DiffLine.old_line_num
      = cb.lines.filterMap DiffLine.old_line_num ++
        List.range' cb.current_old_line
          (inputs.countP fun p => consumesOld p.1) := by
  induction inputs with
  | nil => intro cb _; simp [foldAddLines]
  | cons p rest ih =>
    intro cb h
    obtain ⟨k, c⟩ := p
    rw [foldAddLines_cons]
    have hlen : rest.length + 1 = (⟨k, c⟩ :: rest : List _).length := by simp
    cases k with
    | Context =>
      have hlt : cb.current_old_line + 1 < 4294967296 := by
        simp at h; omega
      have hsucc : u32succ cb.current_old_line = cb.current_old_line + 1 :=
        Nat.mod_eq_of_lt hlt
      have hbound :
          (cb.add_line .Context c).current_old_line + rest.length < 4294967296 := by
        simp [ChunkBuilder.add_line, hsucc]; simp at h; omega
      rw [ih _ hbound]
      simp [ChunkBuilder.add_line, hsucc, List.filterMap_append,
        List.countP_cons, consumesOld, Nat.add_comm, range'_cons_eq]
    | Add =>
      have hbound :
          (cb.add_line .Add c).current_old_line + rest.length < 4294967296 := by
        simp [ChunkBuilder.add_line]; simp at h; omega
      rw [ih _ hbound]
      simp [ChunkBuilder.add_line, List.filterMap_append,
        List.countP_cons, consumesOld]
    | Remove =>
      have hlt : cb.current_old_line + 1 < 4294967296 := by
        simp at h; omega
      have hsucc : u32succ cb.current_old_line = cb.current_old_line + 1 :=
        Nat.mod_eq_of_lt hlt
      have hbound :
          (cb.add_line .Remove c).current_old_line + rest.length < 4294967296 := by
        simp [ChunkBuilder.add_line, hsucc]; simp at h; omega
      rw [ih _ hbound]
      simp [ChunkBuilder.add_line, hsucc, List.filterMap_append,
        List.countP_cons, consumesOld, Nat.add_comm, range'_cons_eq]

theorem foldAddLines_filterMap_new
    (inputs : List (LineKind × List Char)) :
    ∀ cb : ChunkBuilder, cb.current_new_line + inputs.length < 4294967296 →
    (foldAddLines cb inputs).lines.filterMap DiffLine.new_line_num
      = cb.lines.filterMap DiffLine.new_line_num ++
        List.range' cb.current_new_line
          (inputs.countP fun p => consumesNew p.1) := by
  induction inputs with
  | nil => intro cb _; simp [foldAddLines]
  | cons p rest ih =>
    intro cb h
    obtain ⟨k, c⟩ := p
    rw [foldAddLines_cons]
    cases k with
    | Context =>
      have hlt : cb.current_new_line + 1 < 4294967296 := by
        simp at h; omega
      have hsucc : u32succ cb.current_new_line = cb.current_new_line + 1 :=
        Nat.mod_eq_of_lt hlt
      have hbound :
          (cb.add_line .Context c).current_new_line + rest.length < 4294967296 := by
        simp [ChunkBuilder.add_line, hsucc]; simp at h; omega
      rw [ih _ hbound]
      simp [ChunkBuilder.add_line, hsucc, List.filterMap_append,
        List.countP_cons, consumesNew, Nat.add_comm, range'_cons_eq]
    | Add =>
      have hlt : cb.current_new_line + 1 < 4294967296 := by
        simp at h; omega
      have hsucc : u32succ cb.current_new_line = cb.current_new_line + 1 :=
        Nat.mod_eq_of_lt hlt
      have hbound :
          (cb.add_line .Add c).current_new_line + rest.length < 4294967296 := by
        simp [ChunkBuilder.add_line, hsucc]; simp at h; omega
      rw [ih _ hbound]
      simp [ChunkBuilder.add_line, hsucc, List.filterMap_append,
        List.countP_cons, consumesNew, Nat.add_comm, range'_cons_eq]
    | Remove =>
      have hbound :
          (cb.add_line .Remove c).current_new_line + rest.length < 4294967296 := by
        simp [ChunkBuilder.add_line]; simp at h; omega
      rw [ih _ hbound]
      simp [ChunkBuilder.add_line, List.filterMap_append,
        List.countP_cons, consumesNew]

theorem foldAddLines_pattern (inputs : List (LineKind × List Char)) :
    ∀ cb : ChunkBuilder, (∀ l ∈ cb.lines, lineNumPattern l = true) →
    ∀ l ∈ (foldAddLines cb inputs).lines, lineNumPattern l = true := by
  induction inputs with
  | nil => intro cb h; simpa [foldAddLines] using h
  | cons p rest ih =>
    intro cb h
    obtain ⟨k, c⟩ := p
    rw [foldAddLines_cons]
    refine ih _ ?_
    intro l hl
    cases k with
    | Context =>
      simp only [ChunkBuilder.add_line, List.mem_append,
        List.mem_singleton] at hl
      rcases hl with hl | hl
      · exact h l hl
      · subst hl; rfl
    | Add =>
      simp only [ChunkBuilder.add_line, List.mem_append,
        List.mem_singleton] at hl
      rcases hl with hl | hl
      · exact h l hl
      · subst hl; rfl
    | Remove =>
      simp only [ChunkBuilder.add_line, List.mem_append,
        List.mem_singleton] at hl
      rcases hl with hl | hl
      · exact h l hl
      · subst hl; rfl

/-- C2: folding any classified line sequence into a chunk opened by
`start_chunk` yields lines whose optional numbers follow the per-kind
presence pattern, whose present old numbers are exactly the consecutive
(hence strictly increasing) run starting at the old range start — one per
Context/Remove line — and whose present new numbers are the consecutive run
starting at the new range start — one per Context/Add line — the two sides
advancing independently (no `u32` wrap under the stated bounds). -/
theorem c2_line_number_invariant (id : Nat) (oldR newR : LineRange)
    (header : List Char) (inputs : List (LineKind × List Char))
    (hold : oldR.start + inputs.length < 4294967296)
    (hnew : newR.start + inputs.length < 4294967296) :
    (∀ l ∈ ((foldAddLines (ChunkBuilder.init id oldR newR header)
        inputs).build).lines, lineNumPattern l = true) ∧
    ((foldAddLines (ChunkBuilder.init id oldR newR header)
        inputs).build).lines.filterMap DiffLine.old_line_num
      = List.range' oldR.start (inputs.countP fun p => consumesOld p.1) ∧
    ((foldAddLines (ChunkBuilder.init id oldR newR header)
        inputs).build).lines.filterMap DiffLine.new_line_num
      = List.range' newR.start (inputs.countP fun p => consumesNew p.1) ∧
    (((foldAddLines (ChunkBuilder.init id oldR newR header)
        inputs).build).lines.filterMap DiffLine.old_line_num).Pairwise (· < ·) ∧
    (((foldAddLines (ChunkBuilder.init id oldR newR header)
        inputs).build).lines.filterMap DiffLine.new_line_num).Pairwise (· < ·) := by
  have hinit_old : (ChunkBuilder.init id oldR newR header).current_old_line
      = oldR.start := rfl
  have hinit_new : (ChunkBuilder.init id oldR newR header).current_new_line
      = newR.start := rfl
  have hbuild : ((foldAddLines (ChunkBuilder.init id oldR newR header)
      inputs).build).lines
      = (foldAddLines (ChunkBuilder.init id oldR newR header) inputs).lines := rfl
  have hold' := foldAddLines_filterMap_old inputs
    (ChunkBuilder.init id oldR newR header) (by rw [hinit_old]; exact hold)
  have hnew' := foldAddLines_filterMap_new inputs
    (ChunkBuilder.init id oldR newR header) (by rw [hinit_new]; exact hnew)
  simp only [ChunkBuilder.init, List.filterMap_nil, List.nil_append] at hold' hnew'
  refine ⟨?_, ?_, ?_, ?_, ?_⟩
  · intro l hl
    exact foldAddLines_pattern inputs (ChunkBuilder.init id oldR newR header)
      (by intro l hl; simp [ChunkBuilder.init] at hl) l (hbuild ▸ hl)
  · rw [hbuild]; exact hold'
  · rw [hbuild]; exact hnew'
  · rw [hbuild]; exact hold'.symm ▸ range'_pairwise_lt _ _
  · rw [hbuild]; exact hnew'.symm ▸ range'_pairwise_lt _ _

/-- The concrete line sequence of the C1 scenario chunk, reused as the C2
witness input. -/
def c2inputs : List (LineKind × List Char) :=
  [(.Context, str "ctx"), (.Remove, str "old"),
   (.Add, str "new1"), (.Add, str "new2")]

/-- Witness for `c2_line_number_invariant` at the C1 scenario chunk. -/
theorem c2_line_number_invariant_witness :
    ((1 + c2inputs.length < 4294967296) ∧ (1 + c2inputs.length < 4294967296)) ∧
    ((∀ l ∈ ((foldAddLines (ChunkBuilder.init 0 ⟨1, 2⟩ ⟨1, 3⟩ [])
        c2inputs).build).lines, lineNumPattern l = true) ∧
    ((foldAddLines (ChunkBuilder.init 0 ⟨1, 2⟩ ⟨1, 3⟩ [])
        c2inputs).build).lines.filterMap DiffLine.old_line_num
      = List.range' 1 (c2inputs.countP fun p => consumesOld p.1) ∧
    ((foldAddLines (ChunkBuilder.init 0 ⟨1, 2⟩ ⟨1, 3⟩ [])
        c2inputs).build).lines.filterMap DiffLine.new_line_num
      = List.range' 1 (c2inputs.countP fun p => consumesNew p.1) ∧
    (((foldAddLines (ChunkBuilder.init 0 ⟨1, 2⟩ ⟨1, 3⟩ [])
        c2inputs).build).lines.filterMap DiffLine.old_line_num).Pairwise (· < ·) ∧
    (((foldAddLines (ChunkBuilder.init 0 ⟨1, 2⟩ ⟨1, 3⟩ [])
        c2inputs).build).lines.filterMap DiffLine.new_line_num).Pairwise (· < ·)) :=
  ⟨⟨by decide, by decide⟩,
   c2_line_number_invariant 0 ⟨1, 2⟩ ⟨1, 3⟩ [] c2inputs (by decide) (by decide)⟩

/-! ### C3: file order, chunk-id monotonicity and non-reuse across a parse -/

/-- The chunk identifiers of a built file, in order. -/
def fileChunkIds (f : FileDiff) : List Nat := f.chunks.map DiffChunk.id

/-- The chunk identifiers held by a file builder, flushed chunks first, then
the chunk in progress. -/
def builderChunkIds (b : FileDiffBuilder) : List Nat :=
  b.chunks.map DiffChunk.id ++
    (match b.current_chunk with
     | some cb => [cb.id]
     | none => [])

/-- All chunk identifiers reachable from a parser state, in output order. -/
def stateChunkIds (st : ParserState) : List Nat :=
  (st.files.map fileChunkIds).flatten ++
    (match st.current_file with
     | some b => builderChunkIds b
     | none => [])

/-- The number of files a parser state will eventually emit. -/
def stateFileCount (st : ParserState) : Nat :=
  st.files.length +
    (match st.current_file with
     | some _ => 1
     | none => 0)

/-- The chunk identifiers of a parse result, concatenated in file order. -/
def allChunkIds (files : List FileDiff) : List Nat :=
  (files.map fileChunkIds).flatten

theorem fileChunkIds_build (b : FileDiffBuilder) :
    fileChunkIds b.build = builderChunkIds b := by
  cases h : b.current_chunk <;>
    simp [FileDiffBuilder.build, fileChunkIds, builderChunkIds,
      ChunkBuilder.build, h]

theorem builderChunkIds_add_line (b : FileDiffBuilder) (k : LineKind)
    (c : List Char) :
    builderChunkIds (b.add_line k c) = builderChunkIds b := by
  cases h : b.current_chunk with
  | none => simp [FileDiffBuilder.add_line, h]
  | some cb =>
    have hid : (cb.add_line k c).id = cb.id := by
      cases k <;> simp [ChunkBuilder.add_line]
    simp [FileDiffBuilder.add_line, h, builderChunkIds, hid]

theorem builderChunkIds_start_chunk (b : FileDiffBuilder) (id : Nat)
    (o n : LineRange) (hd : List Char) :
    builderChunkIds (b.start_chunk id o n hd) = builderChunkIds b ++ [id] := by
  cases h : b.current_chunk <;>
    simp [FileDiffBuilder.start_chunk, h, builderChunkIds, ChunkBuilder.build,
      ChunkBuilder.init]

theorem processFileLine_spec (counter : Nat) (b : FileDiffBuilder)
    (line : List Char) :
    ((processFileLine counter b line).2.1 = counter ∧
      builderChunkIds (processFileLine counter b line).1 = builderChunkIds b) ∨
    ((processFileLine counter b line).2.1 = counter + 1 ∧
      builderChunkIds (processFileLine counter b line).1
        = builderChunkIds b ++ [counter]) := by
  unfold processFileLine
  by_cases h1 : (str "---").isPrefixOf line
  · rw [if_pos h1]
    left
    exact ⟨rfl, by split <;> simp [builderChunkIds]⟩
  · rw [if_neg h1]
    by_cases h2 : (str "+++").isPrefixOf line
    · rw [if_pos h2]
      left
      exact ⟨rfl, by split <;> simp [builderChunkIds]⟩
    · rw [if_neg h2]
      by_cases h3 : (str "@@").isPrefixOf line
      · rw [if_pos h3]
        cases hp : parse_chunk_header line with
        | some r =>
          obtain ⟨o, n, hd⟩ := r
          right
          exact ⟨rfl, builderChunkIds_start_chunk b counter o n hd⟩
        | none => left; exact ⟨rfl, rfl⟩
      · rw [if_neg h3]
        by_cases h4 : (str "+").isPrefixOf line ∧
            ¬ (str "+++").isPrefixOf line
        · rw [if_pos h4]
          left; exact ⟨rfl, builderChunkIds_add_line b .Add (line.drop 1)⟩
        · rw [if_neg h4]
          by_cases h5 : (str "-").isPrefixOf line ∧
              ¬ (str "---").isPrefixOf line
          · rw [if_pos h5]
            left; exact ⟨rfl, builderChunkIds_add_line b .Remove (line.drop 1)⟩
          · rw [if_neg h5]
            by_cases h6 : (str " ").isPrefixOf line ∨ line = []
            · rw [if_pos h6]
              left
              exact ⟨rfl, builderChunkIds_add_line b .Context
                (if line = [] then [] else line.drop 1)⟩
            · rw [if_neg h6]
              left; exact ⟨rfl, rfl⟩

theorem processLine_ids_invariant (st : ParserState) (line : List Char)
    (h : stateChunkIds st = List.range st.chunk_id_counter) :
    stateChunkIds (processLine st line)
      = List.range (processLine st line).chunk_id_counter := by
  unfold processLine
  split_ifs with hgit
  · cases hf : st.current_file with
    | none => simpa [stateChunkIds, builderChunkIds, FileDiffBuilder.new, hf]
        using h
    | some b =>
      simp only [stateChunkIds, hf] at h
      simp [stateChunkIds, builderChunkIds, FileDiffBuilder.new,
        fileChunkIds_build, h.symm]
  · cases hf : st.current_file with
    | none => simpa [stateChunkIds, hf] using h
    | some b =>
      simp only [stateChunkIds, hf] at h
      rcases processFileLine_spec st.chunk_id_counter b line with
        ⟨hc, hb⟩ | ⟨hc, hb⟩
      · simp [stateChunkIds, hc, hb, h]
      · simp only [stateChunkIds, hc, hb, List.range_succ]
        rw [← List.append_assoc, h]

theorem processLine_fileCount (st : ParserState) (line : List Char) :
    stateFileCount (processLine st line)
      = stateFileCount st +
          (if (str "diff --git").isPrefixOf line then 1 else 0) := by
  unfold processLine
  split_ifs with hgit
  · cases hf : st.current_file <;> simp [stateFileCount, hf]
  · cases hf : st.current_file <;> simp [stateFileCount, hf]

theorem foldl_processLine_ids (lines : List (List Char)) :
    ∀ st : ParserState, stateChunkIds st = List.range st.chunk_id_counter →
    stateChunkIds (lines.foldl processLine st)
      = List.range (lines.foldl processLine st).chunk_id_counter := by
  induction lines with
  | nil => intro st h; simpa using h
  | cons l rest ih =>
    intro st h
    exact ih (processLine st l) (processLine_ids_invariant st l h)

theorem foldl_processLine_fileCount (lines : List (List Char)) :
    ∀ st : ParserState,
    stateFileCount (lines.foldl processLine st)
      = stateFileCount st +
          lines.countP (fun l => (str "diff --git").isPrefixOf l) := by
  induction lines with
  | nil => intro st; simp
  | cons l rest ih =>
    intro st
    rw [List.foldl_cons, ih (processLine st l), processLine_fileCount,
      List.countP_cons]
    by_cases hgit : (str "diff --git").isPrefixOf l <;> simp [hgit] <;> omega

theorem parse_unified_diff_files_ids (t : List Char) :
    (parse_unified_diff t).1.length
      = (rustLines t).countP (fun l => (str "diff --git").isPrefixOf l) ∧
    allChunkIds (parse_unified_diff t).1
      = List.range ((rustLines t).foldl processLine
          ⟨[], [], 0, none⟩).chunk_id_counter := by
  have hids := foldl_processLine_ids (rustLines t) ⟨[], [], 0, none⟩
    (by simp [stateChunkIds])
  have hcount := foldl_processLine_fileCount (rustLines t) ⟨[], [], 0, none⟩
  constructor
  · show (match ((rustLines t).foldl processLine
        ⟨[], [], 0, none⟩).current_file with
      | some b => ((rustLines t).foldl processLine ⟨[], [], 0, none⟩).files
          ++ [b.build]
      | none => ((rustLines t).foldl processLine
          ⟨[], [], 0, none⟩).files).length = _
    cases hf : ((rustLines t).foldl processLine
        ⟨[], [], 0, none⟩).current_file with
    | none =>
      simp only [stateFileCount, hf] at hcount
      simpa using hcount
    | some b =>
      simp only [stateFileCount, hf, List.length_nil] at hcount
      simp only [List.length_append, List.length_cons, List.length_nil]
      omega
  · show allChunkIds (match ((rustLines t).foldl processLine
        ⟨[], [], 0, none⟩).current_file with
      | some b => ((rustLines t).foldl processLine ⟨[], [], 0, none⟩).files
          ++ [b.build]
      | none => ((rustLines t).foldl processLine
          ⟨[], [], 0, none⟩).files) = _
    cases hf : ((rustLines t).foldl processLine
        ⟨[], [], 0, none⟩).current_file with
    | none =>
      simp only [stateChunkIds, hf, List.append_nil] at hids
      simpa [allChunkIds] using hids
    | some b =>
      simp only [stateChunkIds, hf] at hids
      simpa [allChunkIds, fileChunkIds_build] using hids

/-- C3: a parse yields one `FileDiff` per file-pair marker line (source
order), and the chunk identifiers across the whole result, read in file and
hunk order, are exactly `0, 1, 2, …` — strictly increasing and never reused;
the parse is a pure function of the text, so a re-parse reproduces the same
structure with the same monotonic identifiers. -/
theorem c3_file_count_and_id_monotonicity (t : List Char) :
    (parse_unified_diff t).1.length
      = (rustLines t).countP (fun l => (str "diff --git").isPrefixOf l) ∧
    allChunkIds (parse_unified_diff t).1
      = List.range (allChunkIds (parse_unified_diff t).1).length ∧
    (allChunkIds (parse_unified_diff t).1).Pairwise (· < ·) ∧
    (allChunkIds (parse_unified_diff t).1).Nodup ∧
    parse_unified_diff t = parse_unified_diff t := by
  obtain ⟨hcount, hids⟩ := parse_unified_diff_files_ids t
  have hlen : (allChunkIds (parse_unified_diff t).1).length
      = ((rustLines t).foldl processLine ⟨[], [], 0, none⟩).chunk_id_counter := by
    rw [hids, List.length_range]
  refine ⟨hcount, ?_, ?_, ?_, rfl⟩
  · rw [hlen]; exact hids
  · rw [hids]; exact List.pairwise_lt_range _
  · rw [hids]; exact List.nodup_range _

/-! ### C4: malformed hunk headers -/

/-- A diff whose malformed second hunk header follows an open chunk: the
`+second` line after it is appended to the still-open first chunk. -/
def c4AttachInput : List Char :=
  str "diff --git a/a.rs b/a.rs\n@@ -1 +1 @@\n+first\n@@ bad @@?\n+second\n"

/-- A diff whose malformed hunk header is the file's first: the `+dropped`
line after it has no chunk to attach to and is dropped. -/
def c4DropInput : List Char :=
  str "diff --git a/a.rs b/a.rs\n@@ bad @@?\n+dropped\n@@ -1 +1 @@\n+kept\n"

/-- C4 counterexample: with a chunk already open, the `+second` line between
the malformed header `@@ bad @@?` and the end of input is NOT dropped — it is
appended to the previous chunk, refuting the claim that such lines are always
silently dropped (the malformed header is still recorded as a `ParseError`
and starts no chunk). -/
theorem c4_malformed_header_counterexample :
    parse_unified_diff c4AttachInput =
      ([{ path := str "a.rs"
          status := .Modified
          language := some .Rust
          chunks := [{ id := 0
                       old_range := ⟨1, 1⟩
                       new_range := ⟨1, 1⟩
                       header := []
                       lines :=
                         [⟨.Add, none, some 1, str "first"⟩,
                          ⟨.Add, none, some 2, str "second"⟩] }]
          old_content := none
          new_content := none }],
       [⟨str "a.rs", str "Failed to parse chunk header: @@ bad @@?", none⟩]) := by
  decide

/-- C4 (amended): a line starting with `@@` that fails `parse_chunk_header`
is turned into a `ParseError` carrying the offending line, leaves the builder
(including any open chunk) and the id counter untouched, and never aborts;
`+`/`-`/context lines reaching a builder with no open chunk are silently
dropped, while with an open chunk they are appended to it; concretely, a
file whose first hunk header is malformed drops the following `+` line and
parses the rest. -/
theorem c4_malformed_header_amended :
    (∀ (counter : Nat) (b : FileDiffBuilder) (line : List Char),
      (str "@@").isPrefixOf line →
      parse_chunk_header line = none →
      processFileLine counter b line =
        (b, counter,
         some ⟨b.path, str "Failed to parse chunk header: " ++ line, none⟩)) ∧
    (∀ (b : FileDiffBuilder), b.current_chunk = none →
      ∀ (k : LineKind) (c : List Char), b.add_line k c = b) ∧
    (∀ (b : FileDiffBuilder) (cb : ChunkBuilder), b.current_chunk = some cb →
      ∀ (k : LineKind) (c : List Char),
        b.add_line k c = { b with current_chunk := some (cb.add_line k c) }) ∧
    parse_unified_diff c4DropInput =
      ([{ path := str "a.rs"
          status := .Modified
          language := some .Rust
          chunks := [{ id := 0
                       old_range := ⟨1, 1⟩
                       new_range := ⟨1, 1⟩
                       header := []
                       lines := [⟨.Add, none, some 1, str "kept"⟩] }]
          old_content := none
          new_content := none }],
       [⟨str "a.rs", str "Failed to parse chunk header: @@ bad @@?", none⟩]) := by
  refine ⟨?_, ?_, ?_, by decide⟩
  · intro counter b line hat hp
    have hpre : str "@@" <+: line := List.isPrefixOf_iff_prefix.mp hat
    obtain ⟨t, rfl⟩ := hpre
    unfold processFileLine
    rw [if_neg (by simp [str, List.isPrefixOf]),
      if_neg (by simp [str, List.isPrefixOf]), if_pos hat, hp]
  · intro b hb k c
    simp [FileDiffBuilder.add_line, hb]
  · intro b cb hb k c
    simp [FileDiffBuilder.add_line, hb]

/-- Witness for `c4_malformed_header_amended`: its universally quantified
conjuncts applied at concrete inputs, hypotheses discharged there. -/
theorem c4_malformed_header_amended_witness :
    ((str "@@").isPrefixOf (str "@@ bad @@?") = true ∧
     parse_chunk_header (str "@@ bad @@?") = none ∧
     (FileDiffBuilder.new (str "a.rs")).current_chunk = none) ∧
    (processFileLine 7 (FileDiffBuilder.new (str "a.rs")) (str "@@ bad @@?") =
      (FileDiffBuilder.new (str "a.rs"), 7,
       some ⟨str "a.rs",
         str "Failed to parse chunk header: " ++ str "@@ bad @@?", none⟩) ∧
     (FileDiffBuilder.new (str "a.rs")).add_line .Add (str "x")
       = FileDiffBuilder.new (str "a.rs")) :=
  ⟨⟨by decide, by decide, by decide⟩,
   ⟨c4_malformed_header_amended.1 7 (FileDiffBuilder.new (str "a.rs"))
      (str "@@ bad @@?") (by decide) (by decide),
    c4_malformed_header_amended.2.1 (FileDiffBuilder.new (str "a.rs"))
      (by decide) .Add (str "x")⟩⟩

/-! ### C5: the score-threshold filter entry point -/

/-- The fixed filter-reason taxonomy (spec §3: whitespace-only, import-only,
rename, generated-file-pattern, below-score-threshold). -/
inductive FilterReason
  | WhitespaceOnly
  | ImportOnly
  | Rename
  | GeneratedFile
  | BelowThreshold
deriving DecidableEq

/-- Outcome of classifying one chunk: a filtered flag and an optional reason. -/
structure FilterResult where
  is_filtered : Bool
  reason : Option FilterReason
deriving DecidableEq

/-- Modelled from the spec: the `ChunkFilter` engine of `src/diff/filter.rs`
is declared in `src/diff/mod.rs` but its file is not under `src/`; spec §4.2
specifies the second entry point as `filter_by_score(score) -> FilterResult`,
"invoked only after an AI response arrives", yielding "below-threshold" when
`score < configured_threshold`. The `f64` score and threshold are modelled as
rationals. -/
def filter_by_score (threshold score : ℚ) : FilterResult :=
  if score < threshold then ⟨true, some .BelowThreshold⟩ else ⟨false, none⟩

/-- C5: `filter_by_score` filters exactly when the score is strictly below
the threshold, with the below-threshold reason; a score equal to the
threshold is not filtered. -/
theorem c5_score_threshold_boundary (threshold score : ℚ) :
    ((filter_by_score threshold score).is_filtered = true ↔ score < threshold) ∧
    (filter_by_score threshold score).reason
      = (if score < threshold then some .BelowThreshold else none) ∧
    (filter_by_score threshold threshold).is_filtered = false := by
  unfold filter_by_score
  refine ⟨?_, ?_, by simp⟩ <;> split_ifs with h <;> simp [h]

/-! ### C6: the free-text backend's JSON extraction (`src/ai/kiro.rs`) -/

/-- One pass of the ANSI regex `\x1b\[[0-9;]*[a-zA-Z]|\x1b\][^\x07]*\x07`
replace-all: at each position, strip a matching escape sequence or keep the
character. Structural on a fuel argument of at least the list's length. -/
def stripAnsiGo : Nat → List Char → List Char
  | 0, s => s
  | _ + 1, [] => []
  | fuel + 1, c :: rest =>
    if c = '\x1b' then
      match rest with
      | '[' :: rest2 =>
        let ds := rest2.takeWhile (fun d => d.isDigit || d == ';')
        match rest2.drop ds.length with
        | a :: rest4 =>
          if a.isAlpha then stripAnsiGo fuel rest4
          else c :: stripAnsiGo fuel rest
        | [] => c :: stripAnsiGo fuel rest
      | ']' :: rest2 =>
        let ds := rest2.takeWhile (fun d => d != '\x07')
        match rest2.drop ds.length with
        | _ :: rest4 => stripAnsiGo fuel rest4
        | [] => c :: stripAnsiGo fuel rest
      | _ => c :: stripAnsiGo fuel rest
    else c :: stripAnsiGo fuel rest

/-- `KiroProvider::strip_ansi_codes`. -/
def strip_ansi_codes (s : List Char) : List Char := stripAnsiGo s.length s

/-- The scanning loop of `KiroProvider::extract_json`: brace-depth tracking
with in-string and escape state, returning the slice of `clean` between the
first top-level opening brace and the brace closing it. -/
def extractJsonGo (clean : List Char) :
    List Char → Nat → Option Nat → Int → Bool → Bool → Option (List Char)
  | [], _, _, _, _, _ => none
  | c :: rest, i, start, depth, in_string, escape_next =>
    if escape_next then
      extractJsonGo clean rest (i + 1) start depth in_string false
    else if c = '\\' ∧ in_string then
      extractJsonGo clean rest (i + 1) start depth in_string true
    else if c = '"' then
      extractJsonGo clean rest (i + 1) start depth (!in_string) escape_next
    else if c = '\x7b' ∧ !in_string then
      extractJsonGo clean rest (i + 1)
        (if depth = 0 then some i else start) (depth + 1) in_string escape_next
    else if c = '\x7d' ∧ !in_string then
      if depth - 1 = 0 then
        match start with
        | some s => some ((clean.drop s).take (i + 1 - s))
        | none =>
          extractJsonGo clean rest (i + 1) start (depth - 1) in_string
            escape_next
      else
        extractJsonGo clean rest (i + 1) start (depth - 1) in_string
          escape_next
    else
      extractJsonGo clean rest (i + 1) start depth in_string escape_next

/-- `KiroProvider::extract_json`: strip ANSI escapes, then scan for the first
balanced top-level brace-delimited object. -/
def extract_json (text : List Char) : Option (List Char) :=
  let clean := strip_ansi_codes text
  extractJsonGo clean clean 0 none 0 false false

/-- C6: extraction first strips ANSI sequences and then returns the first
balanced object with braces inside strings (after escaped quotes included)
not counted: the ANSI-colored scenario input yields exactly the object
between the escapes, an object containing `\"` and a brace inside a quoted
string is returned whole, and texts with no balanced object (no braces at
all, or an unterminated object) yield nothing. -/
theorem c6_extract_json_scenarios :
    extract_json (str "\x1b[32m\x7b\"score\":0.4,...\x7d\x1b[0m")
      = some (str "\x7b\"score\":0.4,...\x7d") ∧
    strip_ansi_codes (str "\x1b[32m\x7b\"score\":0.4,...\x7d\x1b[0m")
      = str "\x7b\"score\":0.4,...\x7d" ∧
    extract_json (str "\x7b\"a\":\"b\\\"\x7d\",\"c\":1\x7d")
      = some (str "\x7b\"a\":\"b\\\"\x7d\",\"c\":1\x7d") ∧
    extract_json (str "no json here") = none ∧
    extract_json (str "\x7b\"a\":1") = none := by
  refine ⟨?_, ?_, ?_, ?_, ?_⟩ <;> decide

/-! ### C7/C8: the schema-constrained backend's retry loop
(`ClaudeProvider::execute_with_schema`, `src/ai/claude.rs`) -/

/-- The `CraiError` variants `execute_with_schema` can touch
(`src/error.rs`; `Timeout` is in the taxonomy but, as proved below, never
produced). -/
inductive CraiError
  | CliExecution (msg : List Char)
  | ResponseParse (msg : List Char)
  | Timeout (operation : List Char) (duration_secs : Nat)
deriving DecidableEq

/-- How a successful invocation's stdout fares through the success-path
pipeline: JSON-array parse, result-event lookup, `structured_output` lookup,
and deserialization. -/
inductive StdoutParse (α : Type)
  | arrayFail (msg : List Char)
  | noResultEvent
  | noStructuredOutput
  | badStructured (msg : List Char)
  | ok (value : α)
deriving DecidableEq

/-- The observable outcome of one subprocess invocation. `elapsed_ms` is the
wall-clock time the child process took; the source awaits `output()` with no
timeout wrapper, so nothing may depend on it. -/
inductive RunOutcome (α : Type)
  | spawnFail (msg : List Char)
  | ran (exit_success : Bool) (stdout : StdoutParse α) (stderr : List Char)
      (elapsed_ms : Nat)
deriving DecidableEq

/-- Decimal rendering of a number, as Rust's `Display` for the retry count. -/
def natChars (n : Nat) : List Char := (Nat.repr n).data

/-- The retry loop of `execute_with_schema`. Iteration `i` (so `attempt = i`
on entry, as every earlier iteration must have been a non-success exit) runs
invocation `runs i`; a spawn failure or any success-path parse failure
returns at once; a non-success exit increments `attempt`, errors out with the
last stderr once `attempt ≥ max_retries`, and otherwise sleeps
`500 * attempt` ms and loops. Returns the result, the number of invocations
made, and the backoff sleeps in order. -/
def executeGo {α : Type} (runs : Nat → RunOutcome α) (max_retries : Nat) :
    Nat → Nat → List Nat → Except CraiError α × Nat × List Nat
  | 0, i, sleeps =>
    (.error (.CliExecution (str "retry fuel exhausted")), i, sleeps)
  | fuel + 1, i, sleeps =>
    match runs i with
    | .spawnFail msg =>
      (.error (.CliExecution (str "Failed to run claude: " ++ msg)),
       i + 1, sleeps)
    | .ran true stdout _ _ =>
      match stdout with
      | .arrayFail m =>
        (.error (.ResponseParse (str "Failed to parse response array: " ++ m)),
         i + 1, sleeps)
      | .noResultEvent =>
        (.error (.ResponseParse (str "No result event found in response")),
         i + 1, sleeps)
      | .noStructuredOutput =>
        (.error (.ResponseParse (str "No structured_output in result")),
         i + 1, sleeps)
      | .badStructured m =>
        (.error (.ResponseParse (str "Failed to parse structured output: " ++ m)),
         i + 1, sleeps)
      | .ok v => (.ok v, i + 1, sleeps)
    | .ran false _ stderr _ =>
      if i + 1 ≥ max_retries then
        (.error (.CliExecution (str "Claude CLI failed after " ++
           natChars max_retries ++ str " attempts: " ++ stderr)),
         i + 1, sleeps)
      else
        executeGo runs max_retries fuel (i + 1) (sleeps ++ [500 * (i + 1)])

/-- `ClaudeProvider::execute_with_schema`, with one invocation outcome per
attempt index. The fuel `max_retries + 1` exceeds the loop's maximum
iteration count. -/
def execute_with_schema {α : Type} (runs : Nat → RunOutcome α)
    (max_retries : Nat) : Except CraiError α × Nat × List Nat :=
  executeGo runs max_retries (max_retries + 1) 0 []

/-- The error message each success-path parse failure surfaces (none for a
deserialized value). -/
def parseFailMsg {α : Type} : StdoutParse α → Option (List Char)
  | .arrayFail m => some (str "Failed to parse response array: " ++ m)
  | .noResultEvent => some (str "No result event found in response")
  | .noStructuredOutput => some (str "No structured_output in result")
  | .badStructured m => some (str "Failed to parse structured output: " ++ m)
  | .ok _ => none

/-- C7 counterexample: with `max_retries = 3` and a provider whose every
invocation exits successfully but lacks a result event, `execute_with_schema`
makes exactly one invocation, sleeps never, and surfaces the parse error at
once — the missing-result-event failure is NOT retried up to the configured
maximum. -/
theorem c7_retry_counterexample :
    execute_with_schema
        (fun _ => RunOutcome.ran true (StdoutParse.noResultEvent) [] 0
          : Nat → RunOutcome Unit) 3
      = (.error (.ResponseParse (str "No result event found in response")),
         1, []) ∧ (1 : Nat) < 3 :=
  ⟨rfl, by decide⟩

theorem executeGo_all_fail {α : Type} (m : Nat) (runs : Nat → RunOutcome α)
    (stdoutF : Nat → StdoutParse α) (stderrF : Nat → List Char)
    (elapsedF : Nat → Nat)
    (hrun : ∀ i, i < m →
      runs i = .ran false (stdoutF i) (stderrF i) (elapsedF i)) :
    ∀ fuel i sleeps, i < m → m ≤ i + fuel →
    executeGo runs m fuel i sleeps
      = (.error (.CliExecution (str "Claude CLI failed after " ++
           natChars m ++ str " attempts: " ++ stderrF (m - 1))),
         m,
         sleeps ++ (List.range' (i + 1) (m - 1 - i)).map (fun j => 500 * j)) := by
  intro fuel
  induction fuel with
  | zero => intro i sleeps h1 h2; omega
  | succ fuel ih =>
    intro i sleeps h1 h2
    rw [executeGo, hrun i h1]
    dsimp only
    by_cases hend : i + 1 ≥ m
    · have hi : i = m - 1 := by omega
      rw [if_pos hend, hi]
      simp [Nat.sub_self, List.range']
      omega
    · rw [if_neg hend]
      rw [ih (i + 1) (sleeps ++ [500 * (i + 1)]) (by omega) (by omega)]
      have hsplit : m - 1 - i = (m - 1 - (i + 1)) + 1 := by omega
      rw [hsplit, ← range'_cons_eq]
      simp

/-- C7 (amended): only non-zero-exit invocations are retried — `max_retries`
total attempts with linear backoff `attempt * 500` ms between them, the final
error carrying the last stderr — while a success-path parse failure (missing
result event, missing or invalid structured output, unparsable array)
surfaces immediately after a single invocation with no retry. -/
theorem c7_retry_policy_amended {α : Type} (m : Nat) (runs : Nat → RunOutcome α)
    (stdoutF : Nat → StdoutParse α) (stderrF : Nat → List Char)
    (elapsedF : Nat → Nat) :
    (1 ≤ m →
      (∀ i, i < m → runs i = .ran false (stdoutF i) (stderrF i) (elapsedF i)) →
      execute_with_schema runs m
        = (.error (.CliExecution (str "Claude CLI failed after " ++
             natChars m ++ str " attempts: " ++ stderrF (m - 1))),
           m, (List.range' 1 (m - 1)).map (fun j => 500 * j))) ∧
    (∀ p st e msg, runs 0 = .ran true p st e → parseFailMsg p = some msg →
      execute_with_schema runs m = (.error (.ResponseParse msg), 1, [])) ∧
    (∀ msg, runs 0 = .spawnFail msg →
      execute_with_schema runs m
        = (.error (.CliExecution (str "Failed to run claude: " ++ msg)),
           1, [])) := by
  refine ⟨?_, ?_, ?_⟩
  · intro hm hrun
    unfold execute_with_schema
    have := executeGo_all_fail m runs stdoutF stderrF elapsedF hrun
      (m + 1) 0 [] (by omega) (by omega)
    simpa using this
  · intro p st e msg hrun0 hmsg
    unfold execute_with_schema
    rw [executeGo, hrun0]
    cases p <;> simp_all [parseFailMsg]
  · intro msg hrun0
    unfold execute_with_schema
    rw [executeGo, hrun0]

/-- Witness for `c7_retry_policy_amended`: two always-failing attempts give
two invocations, one 500 ms sleep, and the last stderr; a first attempt with
a missing result event returns after one invocation. -/
theorem c7_retry_policy_amended_witness :
    ((1 : Nat) ≤ 2 ∧
     (∀ i, i < 2 →
       (fun j => RunOutcome.ran false (StdoutParse.noResultEvent : StdoutParse Unit)
         (str "boom" ++ natChars j) 0) i
         = .ran false ((fun _ => StdoutParse.noResultEvent) i)
             ((fun j => str "boom" ++ natChars j) i) ((fun _ => 0) i))) ∧
    execute_with_schema
        (fun j => RunOutcome.ran false (StdoutParse.noResultEvent : StdoutParse Unit)
          (str "boom" ++ natChars j) 0) 2
      = (.error (.CliExecution (str "Claude CLI failed after " ++
           natChars 2 ++ str " attempts: " ++ (str "boom" ++ natChars 1))),
         2, (List.range' 1 1).map (fun j => 500 * j)) :=
  ⟨⟨by decide, fun i _ => rfl⟩,
   (c7_retry_policy_amended 2
      (fun j => RunOutcome.ran false (StdoutParse.noResultEvent : StdoutParse Unit)
        (str "boom" ++ natChars j) 0)
      (fun _ => StdoutParse.noResultEvent) (fun j => str "boom" ++ natChars j)
      (fun _ => 0)).1 (by decide) (fun i _ => rfl)⟩

/-- Erase the wall-clock field of an invocation outcome. -/
def eraseElapsed {α : Type} : RunOutcome α → RunOutcome α
  | .spawnFail msg => .spawnFail msg
  | .ran b p st _ => .ran b p st 0

theorem executeGo_no_timeout {α : Type} (runs : Nat → RunOutcome α) (m : Nat) :
    ∀ fuel i sleeps op d,
    (executeGo runs m fuel i sleeps).1 ≠ .error (.Timeout op d) := by
  intro fuel
  induction fuel with
  | zero => intro i sleeps op d; simp [executeGo]
  | succ fuel ih =>
    intro i sleeps op d
    rw [executeGo]
    cases hr : runs i with
    | spawnFail msg => simp
    | ran b p st e =>
      cases b with
      | true => cases p <;> simp
      | false =>
        dsimp only
        by_cases hend : i + 1 ≥ m
        · rw [if_pos hend]; simp
        · rw [if_neg hend]; exact ih (i + 1) (sleeps ++ [500 * (i + 1)]) op d

theorem executeGo_elapsed_irrelevant {α : Type} (m : Nat)
    (runs₁ runs₂ : Nat → RunOutcome α)
    (h : ∀ i, eraseElapsed (runs₁ i) = eraseElapsed (runs₂ i)) :
    ∀ fuel i sleeps,
    executeGo runs₁ m fuel i sleeps = executeGo runs₂ m fuel i sleeps := by
  intro fuel
  induction fuel with
  | zero => intro i sleeps; rfl
  | succ fuel ih =>
    intro i sleeps
    have hi := h i
    rw [executeGo, executeGo]
    cases hr1 : runs₁ i with
    | spawnFail msg =>
      cases hr2 : runs₂ i with
      | spawnFail msg2 =>
        rw [hr1, hr2] at hi
        simp [eraseElapsed] at hi
        rw [hi]
      | ran b p st e => rw [hr1, hr2] at hi; simp [eraseElapsed] at hi
    | ran b p st e =>
      cases hr2 : runs₂ i with
      | spawnFail msg2 => rw [hr1, hr2] at hi; simp [eraseElapsed] at hi
      | ran b2 p2 st2 e2 =>
        rw [hr1, hr2] at hi
        simp only [eraseElapsed, RunOutcome.ran.injEq, and_true] at hi
        obtain ⟨rfl, rfl, rfl⟩ := hi
        cases b with
        | true => rfl
        | false =>
          dsimp only
          by_cases hend : i + 1 ≥ m
          · rw [if_pos hend, if_pos hend]
          · rw [if_neg hend, if_neg hend]
            exact ih (i + 1) (sleeps ++ [500 * (i + 1)])

/-- C8: the configured timeout is never enforced in the schema-constrained
backend: the call's outcome is entirely independent of how long each
subprocess invocation ran (the source awaits `output()` with no timeout
wrapper), and no call ever surfaces the `Timeout` error the taxonomy
reserves for it — a slow call simply blocks instead of being terminated and
recorded as a gap. -/
theorem c8_timeout_never_enforced {α : Type} (m : Nat)
    (runs₁ runs₂ : Nat → RunOutcome α)
    (h : ∀ i, eraseElapsed (runs₁ i) = eraseElapsed (runs₂ i)) :
    execute_with_schema runs₁ m = execute_with_schema runs₂ m ∧
    (∀ op d, (execute_with_schema runs₁ m).1 ≠ .error (.Timeout op d)) := by
  constructor
  · exact executeGo_elapsed_irrelevant m runs₁ runs₂ h (m + 1) 0 []
  · intro op d
    exact executeGo_no_timeout runs₁ m (m + 1) 0 [] op d

/-- An invocation stream whose every subprocess takes ten minutes. -/
def c8runsSlow : Nat → RunOutcome Unit :=
  fun _ => .ran true (.ok ()) [] 600000

/-- An invocation stream whose every subprocess takes one second. -/
def c8runsFast : Nat → RunOutcome Unit :=
  fun _ => .ran true (.ok ()) [] 1000

/-- Witness for `c8_timeout_never_enforced`: a 10-minute invocation against a
1-second one — same outcome, and never a `Timeout` error. -/
theorem c8_timeout_never_enforced_witness :
    (∀ i : Nat, eraseElapsed (c8runsSlow i) = eraseElapsed (c8runsFast i)) ∧
    (execute_with_schema c8runsSlow 3 = execute_with_schema c8runsFast 3 ∧
     (∀ op d, (execute_with_schema c8runsSlow 3).1
         ≠ .error (.Timeout op d))) :=
  ⟨fun _ => rfl,
   c8_timeout_never_enforced 3 c8runsSlow c8runsFast (fun _ => rfl)⟩

/-! ### C9: gap recording in the scoring orchestrator
(`ScoringOrchestrator::score_all`, `src/ai/scoring.rs`) -/

/-- `ChangeClassification` from `src/ai/schema.rs`. -/
inductive ChangeClassification
  | Trivial
  | Routine
  | Notable
  | Significant
  | Critical
deriving DecidableEq

/-- `ControversialityResponse`, restricted to the fields the orchestrator
reads (`score`, `classification`, `reasoning`); `concerns` and `review_depth`
are carried opaquely by the source and never inspected there. -/
structure ControversialityResponse where
  score : ℚ
  classification : ChangeClassification
  reasoning : List Char
deriving DecidableEq

/-- Modelled from the spec: `FilterStats` lives in the absent
`src/diff/filter.rs`; spec §3 specifies running totals of chunks and lines
examined, filtered chunks, and filtered-line counts broken down by reason. -/
structure FilterStats where
  total_chunks : Nat
  total_lines : Nat
  filtered_chunks : Nat
  whitespace_lines : Nat
  import_lines : Nat
  rename_lines : Nat
  generated_lines : Nat
  below_threshold_lines : Nat
deriving DecidableEq

/-- Modelled from the spec: `FilterStats::add_filtered` attributes a filtered
chunk's line count to its reason. -/
def FilterStats.add_filtered (s : FilterStats) (r : FilterReason)
    (line_count : Nat) : FilterStats :=
  match r with
  | .WhitespaceOnly => { s with whitespace_lines := s.whitespace_lines + line_count }
  | .ImportOnly => { s with import_lines := s.import_lines + line_count }
  | .Rename => { s with rename_lines := s.rename_lines + line_count }
  | .GeneratedFile => { s with generated_lines := s.generated_lines + line_count }
  | .BelowThreshold =>
    { s with below_threshold_lines := s.below_threshold_lines + line_count }

/-- `FilterStats::default()`: all counters zero. -/
def FilterStats.init : FilterStats := ⟨0, 0, 0, 0, 0, 0, 0, 0⟩

/-- `ChunkScore` from `scoring.rs`. -/
structure ChunkScore where
  file_index : Nat
  chunk_index : Nat
  chunk_id : Nat
  response : Option ControversialityResponse
  filter_result : Option FilterResult
deriving DecidableEq

/-- `ChunkScore::is_filtered`. -/
def ChunkScore.is_filtered (s : ChunkScore) : Bool :=
  (s.filter_result.map FilterResult.is_filtered).getD false

/-- `ScoringResult` from `scoring.rs`. -/
structure ScoringResult where
  scores : List ChunkScore
  stats : FilterStats
deriving DecidableEq

/-- The state threaded through `score_all`'s synchronous first pass. -/
structure OrchestratorPass1 where
  all_scores : List ChunkScore
  chunks_to_score : List (Nat × Nat × DiffChunk)
  stats : FilterStats
deriving DecidableEq

/-- One chunk of the first pass: bump totals, apply the heuristic filter,
record a filtered `ChunkScore` or queue the chunk for AI scoring. -/
def pass1ChunkStep (filterChunk : DiffChunk → FileDiff → FilterResult)
    (file_idx : Nat) (file : FileDiff) (acc : OrchestratorPass1)
    (ci : Nat × DiffChunk) : OrchestratorPass1 :=
  let chunk := ci.2
  let line_count := chunk.lines.length
  let stats := { acc.stats with
    total_chunks := acc.stats.total_chunks + 1,
    total_lines := acc.stats.total_lines + line_count }
  let fr := filterChunk chunk file
  if fr.is_filtered then
    let stats := match fr.reason with
      | some r => stats.add_filtered r line_count
      | none => stats
    { acc with
      all_scores := acc.all_scores ++
        [⟨file_idx, ci.1, chunk.id, none, some fr⟩],
      stats := stats }
  else
    { acc with
      chunks_to_score := acc.chunks_to_score ++ [(file_idx, ci.1, chunk)],
      stats := stats }

/-- One file of the first pass. -/
def pass1FileStep (filterChunk : DiffChunk → FileDiff → FilterResult)
    (acc : OrchestratorPass1) (fi : Nat × FileDiff) : OrchestratorPass1 :=
  fi.2.chunks.enum.foldl (pass1ChunkStep filterChunk fi.1 fi.2) acc

/-- The heuristic first pass of `score_all`. -/
def firstPass (filterChunk : DiffChunk → FileDiff → FilterResult)
    (files : List FileDiff) : OrchestratorPass1 :=
  files.enum.foldl (pass1FileStep filterChunk) ⟨[], [], FilterStats.init⟩

/-- Placeholder queue entry for an out-of-range completion index; never
reached when the completion order is a permutation of the queue's indices. -/
def dfltEntry : Nat × Nat × DiffChunk := (0, 0, ⟨0, ⟨0, 0⟩, ⟨0, 0⟩, [], []⟩)

/-- The queue entry at completion index `k`. -/
def getEntry (queue : List (Nat × Nat × DiffChunk)) (k : Nat) :
    Nat × Nat × DiffChunk :=
  queue.getD k dfltEntry

/-- The `ChunkScore` the completion loop records for completion index `k`:
on success, `filter_by_score` is applied to the returned score and attached
only when it filters; on failure, a gap with neither response nor filter
result, the chunk identity preserved. -/
def completionScore (threshold : ℚ)
    (provider : Nat → Nat → Except CraiError ControversialityResponse)
    (queue : List (Nat × Nat × DiffChunk)) (k : Nat) : ChunkScore :=
  let entry := getEntry queue k
  match provider entry.1 entry.2.1 with
  | .ok resp =>
    let fr := filter_by_score threshold resp.score
    ⟨entry.1, entry.2.1, entry.2.2.id, some resp,
     if fr.is_filtered then some fr else none⟩
  | .error _ => ⟨entry.1, entry.2.1, entry.2.2.id, none, none⟩

/-- The completion loop of `score_all`'s second pass, consuming completion
indices in completion order (out-of-order relative to the queue): appends one
`ChunkScore` per completion and updates the threshold-filter statistics on
success. -/
def secondPass (threshold : ℚ)
    (provider : Nat → Nat → Except CraiError ControversialityResponse)
    (queue : List (Nat × Nat × DiffChunk)) (order : List Nat)
    (init : List ChunkScore × FilterStats) : List ChunkScore × FilterStats :=
  order.foldl
    (fun acc k =>
      let entry := getEntry queue k
      match provider entry.1 entry.2.1 with
      | .ok resp =>
        let fr := filter_by_score threshold resp.score
        let stats := if fr.is_filtered then
            match fr.reason with
            | some r => acc.2.add_filtered r entry.2.2.lines.length
            | none => acc.2
          else acc.2
        (acc.1 ++ [⟨entry.1, entry.2.1, entry.2.2.id, some resp,
           if fr.is_filtered then some fr else none⟩], stats)
      | .error _ =>
        (acc.1 ++ [⟨entry.1, entry.2.1, entry.2.2.id, none, none⟩], acc.2))
    init

/-- `ScoringOrchestrator::score_all`: heuristic pass, AI pass over the queue
in the given completion order, then the final recomputation of
`filtered_chunks` over the assembled scores. The AI provider is abstracted
as a result per (file index, chunk index); the progress callback performs no
state updates and is omitted. -/
def score_all (filterChunk : DiffChunk → FileDiff → FilterResult)
    (threshold : ℚ)
    (provider : Nat → Nat → Except CraiError ControversialityResponse)
    (files : List FileDiff) (order : List Nat) : ScoringResult :=
  let p1 := firstPass filterChunk files
  let r := secondPass threshold provider p1.chunks_to_score order
    (p1.all_scores, p1.stats)
  let stats := { r.2 with
    filtered_chunks := (r.1.filter (fun s => s.is_filtered)).length }
  ⟨r.1, stats⟩

theorem pass1FileStep_len (filterChunk : DiffChunk → FileDiff → FilterResult)
    (file_idx : Nat) (file : FileDiff) :
    ∀ (cs : List (Nat × DiffChunk)) (acc : OrchestratorPass1),
    ((cs.foldl (pass1ChunkStep filterChunk file_idx file) acc).all_scores.length
      + (cs.foldl (pass1ChunkStep filterChunk file_idx file)
          acc).chunks_to_score.length)
      = acc.all_scores.length + acc.chunks_to_score.length + cs.length := by
  intro cs
  induction cs with
  | nil => intro acc; simp
  | cons c rest ih =>
    intro acc
    rw [List.foldl_cons, ih]
    by_cases hf : (filterChunk c.2 file).is_filtered <;>
      simp [pass1ChunkStep, hf] <;> omega

theorem firstPass_len (filterChunk : DiffChunk → FileDiff → FilterResult)
    (files : List FileDiff) :
    (firstPass filterChunk files).all_scores.length
      + (firstPass filterChunk files).chunks_to_score.length
      = (files.map (fun f => f.chunks.length)).sum := by
  have henum : files.enum.map (fun fi => fi.2.chunks.length)
      = files.map (fun f => f.chunks.length) := by
    have hcomp : files.enum.map (fun fi => fi.2.chunks.length)
        = (files.enum.map Prod.snd).map (fun f => f.chunks.length) := by
      rw [List.map_map]; rfl
    rw [hcomp, List.enum_map_snd]
  suffices h : ∀ (fs : List (Nat × FileDiff)) (acc : OrchestratorPass1),
      ((fs.foldl (pass1FileStep filterChunk) acc).all_scores.length
        + (fs.foldl (pass1FileStep filterChunk) acc).chunks_to_score.length)
        = acc.all_scores.length + acc.chunks_to_score.length
          + (fs.map (fun fi => fi.2.chunks.length)).sum by
    have hmain := h files.enum ⟨[], [], FilterStats.init⟩
    rw [henum] at hmain
    simpa [firstPass] using hmain
  intro fs
  induction fs with
  | nil => intro acc; simp
  | cons fi rest ih =>
    intro acc
    rw [List.foldl_cons, ih]
    have hstep := pass1FileStep_len filterChunk fi.1 fi.2 fi.2.chunks.enum acc
    rw [List.enum_length] at hstep
    simp only [pass1FileStep] at hstep ⊢
    simp only [List.map_cons, List.sum_cons]
    omega

theorem secondPass_scores (threshold : ℚ)
    (provider : Nat → Nat → Except CraiError ControversialityResponse)
    (queue : List (Nat × Nat × DiffChunk)) :
    ∀ (order : List Nat) (init : List ChunkScore × FilterStats),
    (secondPass threshold provider queue order init).1
      = init.1 ++ order.map (completionScore threshold provider queue) := by
  intro order
  induction order with
  | nil => intro init; simp [secondPass]
  | cons k rest ih =>
    intro init
    rw [secondPass, List.foldl_cons]
    rw [show ∀ acc, List.foldl _ acc rest = secondPass threshold provider
      queue rest acc from fun _ => rfl, ih]
    cases hp : provider (getEntry queue k).1 (getEntry queue k).2.1 with
    | ok resp => simp [completionScore, hp]
    | error e => simp [completionScore, hp]

/-- C9: with the completion order any permutation of the scoring queue's
indices, `score_all` returns one `ChunkScore` per chunk of the input (never
aborting on failures), and every queued chunk whose provider call fails is
recorded as a gap — a `ChunkScore` carrying its file index, chunk index and
chunk id with neither response nor filter result — and such a gap is counted
as neither filtered nor reviewed. -/
theorem c9_failed_calls_recorded_as_gaps
    (filterChunk : DiffChunk → FileDiff → FilterResult) (threshold : ℚ)
    (provider : Nat → Nat → Except CraiError ControversialityResponse)
    (files : List FileDiff) (order : List Nat)
    (horder : order.Perm
      (List.range (firstPass filterChunk files).chunks_to_score.length)) :
    (score_all filterChunk threshold provider files order).scores.length
      = (files.map (fun f => f.chunks.length)).sum ∧
    (∀ k, k < (firstPass filterChunk files).chunks_to_score.length →
      ∀ e, provider
          (getEntry (firstPass filterChunk files).chunks_to_score k).1
          (getEntry (firstPass filterChunk files).chunks_to_score k).2.1
        = .error e →
      (⟨(getEntry (firstPass filterChunk files).chunks_to_score k).1,
        (getEntry (firstPass filterChunk files).chunks_to_score k).2.1,
        (getEntry (firstPass filterChunk files).chunks_to_score k).2.2.id,
        none, none⟩ : ChunkScore)
        ∈ (score_all filterChunk threshold provider files order).scores) ∧
    (∀ fi ci id, (ChunkScore.mk fi ci id none none).is_filtered = false ∧
      (ChunkScore.mk fi ci id none none).response = none) := by
  have hscores : (score_all filterChunk threshold provider files order).scores
      = (firstPass filterChunk files).all_scores ++
        order.map (completionScore threshold provider
          (firstPass filterChunk files).chunks_to_score) := by
    simp only [score_all]
    exact secondPass_scores threshold provider _ order _
  refine ⟨?_, ?_, ?_⟩
  · rw [hscores]
    have hlen := firstPass_len filterChunk files
    have horderlen : order.length
        = (firstPass filterChunk files).chunks_to_score.length := by
      have := horder.length_eq
      simpa using this
    simp only [List.length_append, List.length_map]
    omega
  · intro k hk e hp
    rw [hscores]
    have hkmem : k ∈ order := by
      exact horder.mem_iff.mpr (List.mem_range.mpr hk)
    refine List.mem_append_right _ ?_
    have : completionScore threshold provider
        (firstPass filterChunk files).chunks_to_score k
        = ⟨(getEntry (firstPass filterChunk files).chunks_to_score k).1,
           (getEntry (firstPass filterChunk files).chunks_to_score k).2.1,
           (getEntry (firstPass filterChunk files).chunks_to_score k).2.2.id,
           none, none⟩ := by
      simp [completionScore, hp]
    exact this ▸ List.mem_map_of_mem _ hkmem
  · intro fi ci id
    exact ⟨rfl, rfl⟩

/-- A two-chunk scenario file for the C9 witness. -/
def c9file : FileDiff :=
  { path := str "f.py"
    status := .Modified
    language := some .Python
    chunks := [⟨0, ⟨1, 1⟩, ⟨1, 1⟩, [], [⟨.Add, none, some 1, str "a"⟩]⟩,
               ⟨1, ⟨5, 1⟩, ⟨5, 1⟩, [], [⟨.Add, none, some 5, str "b"⟩]⟩]
    old_content := none
    new_content := none }

/-- A heuristic filter that keeps everything (so both chunks are queued). -/
def c9filter : DiffChunk → FileDiff → FilterResult := fun _ _ => ⟨false, none⟩

/-- A provider that scores the first chunk and fails on the second. -/
def c9provider : Nat → Nat → Except CraiError ControversialityResponse :=
  fun _ ci =>
    if ci = 0 then .ok ⟨1/2, .Routine, str "ok"⟩
    else .error (.CliExecution (str "boom"))

/-- Witness for `c9_failed_calls_recorded_as_gaps`: two queued chunks
completing out of order (`[1, 0]`), the second one failing. -/
theorem c9_failed_calls_recorded_as_gaps_witness :
    ([1, 0].Perm
      (List.range (firstPass c9filter [c9file]).chunks_to_score.length)) ∧
    ((score_all c9filter (1/4) c9provider [c9file] [1, 0]).scores.length
      = ([c9file].map (fun f => f.chunks.length)).sum ∧
    (∀ k, k < (firstPass c9filter [c9file]).chunks_to_score.length →
      ∀ e, c9provider
          (getEntry (firstPass c9filter [c9file]).chunks_to_score k).1
          (getEntry (firstPass c9filter [c9file]).chunks_to_score k).2.1
        = .error e →
      (⟨(getEntry (firstPass c9filter [c9file]).chunks_to_score k).1,
        (getEntry (firstPass c9filter [c9file]).chunks_to_score k).2.1,
        (getEntry (firstPass c9filter [c9file]).chunks_to_score k).2.2.id,
        none, none⟩ : ChunkScore)
        ∈ (score_all c9filter (1/4) c9provider [c9file] [1, 0]).scores) ∧
    (∀ fi ci id, (ChunkScore.mk fi ci id none none).is_filtered = false ∧
      (ChunkScore.mk fi ci id none none).response = none)) :=
  ⟨by decide,
   c9_failed_calls_recorded_as_gaps c9filter (1/4) c9provider [c9file] [1, 0]
     (by decide)⟩

end Crai
